import Mathlib

/-!
Shallow embedding of the poker hand evaluator from
`src/app/components/PokerHandEvaluator.tsx` (function `evaluateHand`),
together with theorems checking the natural-language specification
against it.

The TypeScript component keeps the selected cards in React state; the
evaluation logic itself is a pure function of the five selected cards,
which we embed as `classify : List PlayingCard → Option HandRank`
(`null` becomes `none`).
-/

/-- The four suits, mirroring `type Suit` in the source. -/
inductive Suit where
  | hearts
  | diamonds
  | clubs
  | spades
deriving DecidableEq

/-- The thirteen ranks, mirroring `type Rank` ("2" .. "10", "J", "Q", "K", "A"). -/
inductive Rank where
  | r2 | r3 | r4 | r5 | r6 | r7 | r8 | r9 | r10
  | jack | queen | king | ace
deriving DecidableEq

/-- `type PlayingCard = { suit: Suit; rank: Rank }`. -/
structure PlayingCard where
  suit : Suit
  rank : Rank
deriving DecidableEq

/-- The ten non-null values of `type HandRank` in the source; the source's
`| null` alternative is modelled by wrapping results in `Option`. -/
inductive HandRank where
  | royalFlush
  | straightFlush
  | fourOfAKind
  | fullHouse
  | flush
  | straight
  | threeOfAKind
  | twoPair
  | pair
  | highCard
deriving DecidableEq

/-- `const ranks: Rank[] = ["2", ..., "A"]`. -/
def ranks : List Rank :=
  [.r2, .r3, .r4, .r5, .r6, .r7, .r8, .r9, .r10, .jack, .queen, .king, .ace]

/-- `ranks.indexOf(card.rank) + 2`: the numeric value of a rank, 2..14 with Ace = 14. -/
def rankValue (r : Rank) : Nat :=
  ranks.indexOf r + 2

/-- `selectedCards.map(card => ranks.indexOf(card.rank) + 2).sort((a, b) => a - b)`:
the numeric values of the hand, sorted ascending.  JavaScript's numeric sort
returns the ascending reordering of the array, which on natural numbers is the
unique sorted permutation, so insertion sort embeds it faithfully. -/
def handValues (cards : List PlayingCard) : List Nat :=
  List.insertionSort (fun a b => a ≤ b) (cards.map fun c => rankValue c.rank)

/-- The list of suits of the hand (the multiset underlying `suitsCount`). -/
def suitList (cards : List PlayingCard) : List Suit :=
  cards.map fun c => c.suit

/-- `Object.values(suitsCount).some(count => count === 5)`: `suitsCount` maps each
suit occurring in the hand to its number of occurrences, and the hand is a flush
when some suit occurs five times.  `dedup` of the suit list enumerates exactly
the suits present (the record's keys), and `count` gives each one's tally. -/
def isFlush (cards : List PlayingCard) : Bool :=
  ((suitList cards).dedup.map fun s => (suitList cards).count s).any fun n => n == 5

/-- `values.every((val, i) => i === 0 || val === values[i-1] + 1)`: every element
after the first is the predecessor plus one. -/
def chainStep : List Nat → Bool
  | [] => true
  | [_] => true
  | a :: b :: rest => (b == a + 1) && chainStep (b :: rest)

/-- `isStraight`: consecutive ascending values, or
`values.join() === "2,3,4,5,14"` (the ace-low wheel).  Joining five decimal
numerals with commas is injective, so the string test is equality with the
list `[2, 3, 4, 5, 14]`. -/
def isStraight (values : List Nat) : Bool :=
  chainStep values || (values == [2, 3, 4, 5, 14])

/-- `Object.values(valueCount).sort((a, b) => b - a)`: the frequency of each
distinct value, sorted descending. -/
def freqCounts (values : List Nat) : List Nat :=
  List.insertionSort (fun a b => b ≤ a) (values.dedup.map fun v => values.count v)

/-- `evaluateHand`: the guard `if (selectedCards.length !== 5) return null`
followed by the cascade of rank tests, highest priority first.  JavaScript
out-of-bounds reads (`counts[1]` on a one-element array) yield `undefined`,
which compares unequal to every number; `getD _ 0` models this, `0` being a
value no guard tests for. -/
def classify (cards : List PlayingCard) : Option HandRank :=
  if cards.length ≠ 5 then none
  else if isFlush cards && isStraight (handValues cards)
          && ((handValues cards).getD 4 0 == 14) then some .royalFlush
  else if isFlush cards && isStraight (handValues cards) then some .straightFlush
  else if (freqCounts (handValues cards)).getD 0 0 == 4 then some .fourOfAKind
  else if (freqCounts (handValues cards)).getD 0 0 == 3
          && (freqCounts (handValues cards)).getD 1 0 == 2 then some .fullHouse
  else if isFlush cards then some .flush
  else if isStraight (handValues cards) then some .straight
  else if (freqCounts (handValues cards)).getD 0 0 == 3 then some .threeOfAKind
  else if (freqCounts (handValues cards)).getD 0 0 == 2
          && (freqCounts (handValues cards)).getD 1 0 == 2 then some .twoPair
  else if (freqCounts (handValues cards)).getD 0 0 == 2 then some .pair
  else some .highCard

-- Sanity checks of the embedding on concrete hands.
example : classify [⟨.spades, .r10⟩, ⟨.spades, .jack⟩, ⟨.spades, .queen⟩,
    ⟨.spades, .king⟩, ⟨.spades, .ace⟩] = some .royalFlush := by decide

example : classify [⟨.diamonds, .ace⟩, ⟨.diamonds, .r2⟩, ⟨.diamonds, .r3⟩,
    ⟨.diamonds, .r4⟩, ⟨.diamonds, .r5⟩] = some .royalFlush := by decide

example : classify [⟨.clubs, .r9⟩, ⟨.diamonds, .r9⟩, ⟨.hearts, .r9⟩,
    ⟨.spades, .king⟩, ⟨.clubs, .king⟩] = some .fullHouse := by decide

example : classify [⟨.clubs, .r2⟩, ⟨.diamonds, .r2⟩, ⟨.hearts, .r5⟩,
    ⟨.spades, .r5⟩, ⟨.clubs, .king⟩] = some .twoPair := by decide

example : classify [⟨.clubs, .r2⟩, ⟨.diamonds, .r2⟩, ⟨.hearts, .r5⟩,
    ⟨.spades, .r9⟩, ⟨.clubs, .king⟩] = some .pair := by decide

example : classify [] = none := by decide

example : classify [⟨.hearts, .r2⟩, ⟨.hearts, .r3⟩, ⟨.hearts, .r4⟩,
    ⟨.hearts, .r5⟩, ⟨.hearts, .r6⟩] = some .straightFlush := by decide

/-! ### Helper lemmas -/

theorem length_eq_five {α : Type} {l : List α} (h : l.length = 5) :
    ∃ a b c d e, l = [a, b, c, d, e] := by
  cases l with
  | nil => simp at h
  | cons a l =>
  cases l with
  | nil => simp at h
  | cons b l =>
  cases l with
  | nil => simp at h
  | cons c l =>
  cases l with
  | nil => simp at h
  | cons d l =>
  cases l with
  | nil => simp at h
  | cons e l =>
  cases l with
  | nil => exact ⟨a, b, c, d, e, rfl⟩
  | cons f l => simp [List.length] at h

theorem handValues_length (cards : List PlayingCard) :
    (handValues cards).length = cards.length := by
  rw [handValues, List.length_insertionSort, List.length_map]

theorem classify_isSome {cards : List PlayingCard} (h : cards.length = 5) :
    ∃ r, classify cards = some r := by
  rw [classify, if_neg (by omega)]
  repeat' split
  all_goals exact ⟨_, rfl⟩

theorem isStraight_iff_spec {values : List Nat} (h : values.length = 5) :
    isStraight values = true ↔
      (∃ a, values = [a, a + 1, a + 2, a + 3, a + 4]) ∨ values = [2, 3, 4, 5, 14] := by
  obtain ⟨a, b, c, d, e, rfl⟩ := length_eq_five h
  simp only [isStraight, chainStep, Bool.or_eq_true, Bool.and_eq_true, beq_iff_eq,
    List.cons.injEq, and_true]
  constructor
  · rintro (⟨h1, h2, h3, h4⟩ | h)
    · exact Or.inl ⟨a, rfl, by omega, by omega, by omega, by omega⟩
    · exact Or.inr h
  · rintro (⟨x, rfl, h2, h3, h4, h5, -⟩ | h)
    · exact Or.inl ⟨by omega, by omega, by omega, by omega⟩
    · exact Or.inr h

theorem nodup_of_isStraight {values : List Nat} (h : values.length = 5)
    (hs : isStraight values = true) : values.Nodup := by
  rcases (isStraight_iff_spec h).mp hs with ⟨a, rfl⟩ | rfl
  · simp only [List.nodup_cons, List.mem_cons, List.mem_singleton, List.not_mem_nil,
      List.nodup_nil, and_true, or_false, not_false_eq_true]
    omega
  · decide

theorem isStraight_eq_false_of_head3 {values : List Nat} (h : values.length = 5)
    (h3 : (freqCounts values).getD 0 0 = 3) : isStraight values = false := by
  cases hb : isStraight values with
  | false => rfl
  | true =>
    exfalso
    have hnd := nodup_of_isStraight h hb
    have hmem : (3 : Nat) ∈ freqCounts values := by
      cases hfc : freqCounts values with
      | nil => rw [hfc] at h3; simp at h3
      | cons c t =>
        rw [hfc] at h3
        simp only [List.getD_cons_zero] at h3
        rw [h3]; exact List.mem_cons_self _ _
    rw [freqCounts, List.mem_insertionSort] at hmem
    obtain ⟨v, _, hcount⟩ := List.mem_map.mp hmem
    have := List.nodup_iff_count_le_one.mp hnd v
    omega

theorem isFlush_iff_count {cards : List PlayingCard} :
    isFlush cards = true ↔ ∃ s, (suitList cards).count s = 5 := by
  simp only [isFlush, List.any_eq_true, List.mem_map, beq_iff_eq]
  constructor
  · rintro ⟨n, ⟨s, _, rfl⟩, hn⟩
    exact ⟨s, hn⟩
  · rintro ⟨s, hc⟩
    refine ⟨(suitList cards).count s, ⟨s, ?_, rfl⟩, hc⟩
    rw [List.mem_dedup]
    exact List.count_pos_iff.mp (by omega)

theorem isFlush_iff_allSame {cards : List PlayingCard} (h : cards.length = 5) :
    isFlush cards = true ↔ ∃ s, ∀ c ∈ cards, c.suit = s := by
  rw [isFlush_iff_count]
  have hlen : (suitList cards).length = 5 := by rw [suitList, List.length_map, h]
  constructor
  · rintro ⟨s, hc⟩
    refine ⟨s, fun c hcm => ?_⟩
    have hall := List.count_eq_length.mp (by rw [hc, hlen])
    exact (hall c.suit (List.mem_map_of_mem _ hcm)).symm
  · rintro ⟨s, hall⟩
    refine ⟨s, ?_⟩
    rw [List.count_eq_length.mpr ?_, hlen]
    rintro b hb
    obtain ⟨c, hcm, rfl⟩ := List.mem_map.mp hb
    exact (hall c hcm).symm

theorem handValues_perm {l1 l2 : List PlayingCard} (h : l1.Perm l2) :
    handValues l1 = handValues l2 := by
  refine List.eq_of_perm_of_sorted ?_ (List.sorted_insertionSort _ _)
    (List.sorted_insertionSort _ _)
  exact ((List.perm_insertionSort _ _).trans (h.map _)).trans
    (List.perm_insertionSort _ _).symm

theorem isFlush_perm {l1 l2 : List PlayingCard} (h : l1.Perm l2) :
    isFlush l1 = isFlush l2 := by
  have hs : (suitList l1).Perm (suitList l2) := h.map _
  rw [Bool.eq_iff_iff, isFlush_iff_count, isFlush_iff_count]
  constructor
  · rintro ⟨s, hc⟩
    exact ⟨s, by rw [← hs.count_eq]; exact hc⟩
  · rintro ⟨s, hc⟩
    exact ⟨s, by rw [hs.count_eq]; exact hc⟩

theorem sorted_const (v : Nat) :
    List.Sorted (fun a b : Nat => a ≤ b) [v, v, v, v, v] := by
  simp [List.sorted_cons]

theorem handValues_const {cards : List PlayingCard} {r : Rank} (h5 : cards.length = 5)
    (hall : ∀ c ∈ cards, c.rank = r) :
    handValues cards = [rankValue r, rankValue r, rankValue r, rankValue r, rankValue r] := by
  obtain ⟨c1, c2, c3, c4, c5, rfl⟩ := length_eq_five h5
  have e1 := hall c1 (by simp)
  have e2 := hall c2 (by simp)
  have e3 := hall c3 (by simp)
  have e4 := hall c4 (by simp)
  have e5 := hall c5 (by simp)
  rw [handValues]
  simp only [List.map_cons, List.map_nil, e1, e2, e3, e4, e5]
  exact (sorted_const _).insertionSort_eq

theorem chainStep_const (v : Nat) : chainStep [v, v, v, v, v] = false := by
  have hne : (v == v + 1) = false := beq_eq_false_iff_ne.mpr (by omega)
  simp [chainStep, hne]

theorem isStraight_const (v : Nat) : isStraight [v, v, v, v, v] = false := by
  rw [isStraight, chainStep_const, Bool.false_or]
  refine beq_eq_false_iff_ne.mpr ?_
  intro h
  simp only [List.cons.injEq] at h
  omega

theorem dedup_const (v : Nat) : List.dedup [v, v, v, v, v] = [v] := by
  simp [List.dedup_cons_of_mem, List.dedup_cons_of_not_mem]

theorem freqCounts_const (v : Nat) : freqCounts [v, v, v, v, v] = [5] := by
  rw [freqCounts, dedup_const]
  simp [List.insertionSort, List.orderedInsert]

theorem classify_const_rank {cards : List PlayingCard} {r : Rank} (h5 : cards.length = 5)
    (hall : ∀ c ∈ cards, c.rank = r) :
    classify cards = some (if isFlush cards then HandRank.flush else HandRank.highCard) := by
  have hv := handValues_const h5 hall
  have hs : isStraight (handValues cards) = false := by rw [hv]; exact isStraight_const _
  have hc : freqCounts (handValues cards) = [5] := by rw [hv]; exact freqCounts_const _
  cases hf : isFlush cards with
  | true => simp [classify, h5, hs, hc, hf]
  | false => simp [classify, h5, hs, hc, hf]

/-! ### Claim theorems -/

/-- C1: the spec demands that the ace-low wheel straight flush
{A♦, 2♦, 3♦, 4♦, 5♦} classify as Straight Flush and never Royal Flush
(`isFlush ∧ isStraight ∧ highValue == 14 ∧ ¬wheel` → Royal Flush).  The code
sorts the Ace as 14 even in the wheel, so its Royal Flush guard
`values[4] === 14` fires on the wheel: evaluating the code on the spec's own
test vector yields Royal Flush, not Straight Flush. -/
theorem c1_wheel_classified_royal : classify [⟨.diamonds, .ace⟩, ⟨.diamonds, .r2⟩,
      ⟨.diamonds, .r3⟩, ⟨.diamonds, .r4⟩, ⟨.diamonds, .r5⟩] = some HandRank.royalFlush ∧
    classify [⟨.diamonds, .ace⟩, ⟨.diamonds, .r2⟩, ⟨.diamonds, .r3⟩, ⟨.diamonds, .r4⟩,
      ⟨.diamonds, .r5⟩] ≠ some HandRank.straightFlush := by decide

/-- C2: `classify` returns `none` exactly when the input does not contain
exactly five cards; every five-card input yields a hand rank. -/
theorem c2_none_iff_length_ne_five (cards : List PlayingCard) :
    classify cards = none ↔ cards.length ≠ 5 := by
  constructor
  · intro h hlen
    obtain ⟨r, hr⟩ := classify_isSome hlen
    rw [hr] at h
    exact Option.noConfusion h
  · intro h
    rw [classify, if_pos h]

/-- C3: a five-card hand that satisfies both the flush predicate and the
straight predicate classifies as Royal Flush or Straight Flush, never as
Flush or Straight (those are only reached when the earlier guards fail). -/
theorem c3_flush_and_straight (cards : List PlayingCard) (h5 : cards.length = 5)
    (hf : isFlush cards = true) (hs : isStraight (handValues cards) = true) :
    classify cards = some HandRank.royalFlush ∨
      classify cards = some HandRank.straightFlush := by
  by_cases h14 : (handValues cards).getD 4 0 = 14
  all_goals rw [List.getD_eq_getElem?_getD] at h14
  · left
    simp [classify, h5, hf, hs, h14]
  · right
    simp [classify, h5, hf, hs, h14]

/-- C3 witness: the concrete straight flush {2♥, 3♥, 4♥, 5♥, 6♥}. -/
theorem c3_witness : classify [⟨.hearts, .r2⟩, ⟨.hearts, .r3⟩, ⟨.hearts, .r4⟩,
      ⟨.hearts, .r5⟩, ⟨.hearts, .r6⟩] = some HandRank.royalFlush ∨
    classify [⟨.hearts, .r2⟩, ⟨.hearts, .r3⟩, ⟨.hearts, .r4⟩, ⟨.hearts, .r5⟩,
      ⟨.hearts, .r6⟩] = some HandRank.straightFlush :=
  c3_flush_and_straight _ (by decide) (by decide) (by decide)

/-- C4: the ace-high royal hand {10♠, J♠, Q♠, K♠, A♠} classifies as Royal Flush. -/
theorem c4_royal_flush : classify [⟨.spades, .r10⟩, ⟨.spades, .jack⟩,
      ⟨.spades, .queen⟩, ⟨.spades, .king⟩, ⟨.spades, .ace⟩]
    = some HandRank.royalFlush := by decide

/-- C5: on a five-card hand the straight predicate holds iff the
ascending-sorted values are five consecutive integers or are exactly
[2, 3, 4, 5, 14] (the wheel). -/
theorem c5_straight_predicate (cards : List PlayingCard) (h5 : cards.length = 5) :
    isStraight (handValues cards) = true ↔
      (∃ a, handValues cards = [a, a + 1, a + 2, a + 3, a + 4]) ∨
        handValues cards = [2, 3, 4, 5, 14] :=
  isStraight_iff_spec (by rw [handValues_length, h5])

/-- C5 witness: the concrete straight {5♣, 6♦, 7♥, 8♠, 9♣}. -/
theorem c5_witness :
    isStraight (handValues [⟨.clubs, .r5⟩, ⟨.diamonds, .r6⟩, ⟨.hearts, .r7⟩,
        ⟨.spades, .r8⟩, ⟨.clubs, .r9⟩]) = true ↔
      (∃ a, handValues [⟨.clubs, .r5⟩, ⟨.diamonds, .r6⟩, ⟨.hearts, .r7⟩,
          ⟨.spades, .r8⟩, ⟨.clubs, .r9⟩] = [a, a + 1, a + 2, a + 3, a + 4]) ∨
        handValues [⟨.clubs, .r5⟩, ⟨.diamonds, .r6⟩, ⟨.hearts, .r7⟩,
          ⟨.spades, .r8⟩, ⟨.clubs, .r9⟩] = [2, 3, 4, 5, 14] :=
  c5_straight_predicate _ (by decide)

/-- C6: `classify` is invariant under permutation of the input sequence. -/
theorem c6_permutation_invariant (l1 l2 : List PlayingCard) (h : l1.Perm l2) :
    classify l1 = classify l2 := by
  have hv := handValues_perm h
  have hf := isFlush_perm h
  have hl := h.length_eq
  simp only [classify, hv, hf, hl]

/-- C6 witness: a full house listed in two different orders. -/
theorem c6_witness : classify [⟨.clubs, .r9⟩, ⟨.diamonds, .r9⟩, ⟨.hearts, .r9⟩,
      ⟨.spades, .king⟩, ⟨.clubs, .king⟩]
    = classify [⟨.clubs, .king⟩, ⟨.spades, .king⟩, ⟨.hearts, .r9⟩,
      ⟨.diamonds, .r9⟩, ⟨.clubs, .r9⟩] :=
  c6_permutation_invariant _ _ (by decide)

/-- C7: {2♣, 2♦, 5♥, 5♠, K♣} classifies as Two Pair while
{2♣, 2♦, 5♥, 9♠, K♣} classifies as Pair. -/
theorem c7_two_pair_vs_pair : classify [⟨.clubs, .r2⟩, ⟨.diamonds, .r2⟩,
      ⟨.hearts, .r5⟩, ⟨.spades, .r5⟩, ⟨.clubs, .king⟩] = some HandRank.twoPair ∧
    classify [⟨.clubs, .r2⟩, ⟨.diamonds, .r2⟩, ⟨.hearts, .r5⟩, ⟨.spades, .r9⟩,
      ⟨.clubs, .king⟩] = some HandRank.pair := by decide

/-- C8: a five-card hand whose descending frequency list begins 3, 2
classifies as Full House. -/
theorem c8_full_house (cards : List PlayingCard) (h5 : cards.length = 5)
    (h3 : (freqCounts (handValues cards)).getD 0 0 = 3)
    (h2 : (freqCounts (handValues cards)).getD 1 0 = 2) :
    classify cards = some HandRank.fullHouse := by
  have hvlen : (handValues cards).length = 5 := by rw [handValues_length, h5]
  have hs := isStraight_eq_false_of_head3 hvlen h3
  rw [List.getD_eq_getElem?_getD] at h3 h2
  simp [classify, h5, hs, h3, h2]

/-- C8 witness: the concrete full house {9♣, 9♦, 9♥, K♠, K♣}. -/
theorem c8_witness : classify [⟨.clubs, .r9⟩, ⟨.diamonds, .r9⟩, ⟨.hearts, .r9⟩,
      ⟨.spades, .king⟩, ⟨.clubs, .king⟩] = some HandRank.fullHouse :=
  c8_full_house _ (by decide) (by decide) (by decide)

/-- C9: `classify` is total on five-card inputs, duplicates included: it
always produces a hand rank (being a function, it produces exactly one). -/
theorem c9_total (cards : List PlayingCard) (h5 : cards.length = 5) :
    ∃ r, classify cards = some r :=
  classify_isSome h5

/-- C9 witness: a duplicate-card hand (two identical 2♣) still classifies. -/
theorem c9_witness : ∃ r, classify [⟨.clubs, .r2⟩, ⟨.clubs, .r2⟩, ⟨.hearts, .r5⟩,
      ⟨.spades, .r9⟩, ⟨.clubs, .king⟩] = some r :=
  c9_total _ (by decide)

/-- C10: a hand of five cards of one single rank (possible only with
duplicates) is never Four of a Kind — its sole frequency count is 5, which
matches no guard — and classifies as Flush when the five cards also share a
suit, High Card otherwise. -/
theorem c10_all_same_rank (cards : List PlayingCard) (r : Rank)
    (h5 : cards.length = 5) (hall : ∀ c ∈ cards, c.rank = r) :
    classify cards ≠ some HandRank.fourOfAKind ∧
    ((∃ s, ∀ c ∈ cards, c.suit = s) → classify cards = some HandRank.flush) ∧
    ((¬∃ s, ∀ c ∈ cards, c.suit = s) → classify cards = some HandRank.highCard) := by
  have hcl := classify_const_rank h5 hall
  by_cases hfl : ∃ s, ∀ c ∈ cards, c.suit = s
  · have hf : isFlush cards = true := (isFlush_iff_allSame h5).mpr hfl
    simp only [hf, if_true] at hcl
    exact ⟨by rw [hcl]; simp, fun _ => hcl, fun hn => absurd hfl hn⟩
  · have hf : isFlush cards = false := by
      cases hb : isFlush cards with
      | false => rfl
      | true => exact absurd ((isFlush_iff_allSame h5).mp hb) hfl
    simp only [hf, Bool.false_eq_true, if_false] at hcl
    exact ⟨by rw [hcl]; simp, fun hp => absurd hp hfl, fun _ => hcl⟩

/-- C10 witness: five copies of A♠ classify as Flush, not Four of a Kind. -/
theorem c10_witness : classify [⟨.spades, .ace⟩, ⟨.spades, .ace⟩, ⟨.spades, .ace⟩,
      ⟨.spades, .ace⟩, ⟨.spades, .ace⟩] ≠ some HandRank.fourOfAKind ∧
    classify [⟨.spades, .ace⟩, ⟨.spades, .ace⟩, ⟨.spades, .ace⟩, ⟨.spades, .ace⟩,
      ⟨.spades, .ace⟩] = some HandRank.flush := by
  have h := c10_all_same_rank [⟨.spades, .ace⟩, ⟨.spades, .ace⟩, ⟨.spades, .ace⟩,
    ⟨.spades, .ace⟩, ⟨.spades, .ace⟩] Rank.ace (by decide) (by decide)
  exact ⟨h.1, h.2.1 ⟨Suit.spades, by decide⟩⟩
